import Mathlib

/-!
Verification of the `jules-chat-extension` verification scripts
(`verify_webview.py`, `verify_commands.py`, `verify_render.py`).

Strings are modelled as `List Char`.  The Python string primitives that the
scripts use (`str.find`, `str.replace`, `str.count`, `str.strip`, slicing
with a possibly negative end index) are embedded as executable Lean
functions, and each script's pipeline is embedded on top of them.
-/

namespace VerifyScripts

/-- `begWith p s` is true when the list `p` is an initial segment of `s`
(the test Python performs at one scan position of `find`/`replace`). -/
def begWith : List Char → List Char → Bool
  | [], _ => true
  | _ :: _, [] => false
  | a :: as, b :: bs => a == b && begWith as bs

/-- `occursB pat s` is true when `pat` occurs as a contiguous segment of `s`
(Python's `pat in s`). -/
def occursB (pat : List Char) : List Char → Bool
  | [] => pat.isEmpty
  | c :: cs => begWith pat (c :: cs) || occursB pat cs

/-- Fuel-driven scanner behind `pyCount`; the fuel makes the recursion
structural so that the kernel can evaluate it. -/
def countFuel (pat : List Char) : Nat → List Char → Nat
  | 0, _ => 0
  | _, [] => 0
  | fuel + 1, c :: cs =>
    if begWith pat (c :: cs) then 1 + countFuel pat fuel ((c :: cs).drop pat.length)
    else countFuel pat fuel cs

/-- Python's `s.count(pat)`: number of non-overlapping occurrences of `pat`
in `s`, counted by a greedy left-to-right scan. -/
def pyCount (pat s : List Char) : Nat :=
  if pat.isEmpty then s.length + 1 else countFuel pat s.length s

/-- Fuel-driven scanner behind `pyReplace`. -/
def replaceFuel (pat rep : List Char) : Nat → List Char → List Char
  | 0, s => s
  | _, [] => []
  | fuel + 1, c :: cs =>
    if begWith pat (c :: cs) then rep ++ replaceFuel pat rep fuel ((c :: cs).drop pat.length)
    else c :: replaceFuel pat rep fuel cs

/-- Python's `s.replace(pat, rep)`: replaces every non-overlapping occurrence
of `pat` by `rep`, scanning greedily left-to-right. -/
def pyReplace (pat rep s : List Char) : List Char :=
  if pat.isEmpty then s else replaceFuel pat rep s.length s

/-- Scanner behind `pyFind`: index (counting from `i`) of the first position
of `s` at which `pat` begins, if any. -/
def findAux (pat : List Char) : List Char → Nat → Option Nat
  | [], i => if begWith pat [] then some i else none
  | c :: cs, i => if begWith pat (c :: cs) then some i else findAux pat cs (i + 1)

/-- Python's `s.find(pat, start)`: smallest index at or after `start` where
`pat` occurs, and `-1` when there is none. -/
def pyFind (pat s : List Char) (start : Nat) : Int :=
  match findAux pat (s.drop start) start with
  | some j => (j : Int)
  | none => -1

/-- Python's slice `s[a:b]` for a natural start index and an integer end
index: a negative `b` counts from the end of the string. -/
def pySliceIE (s : List Char) (a : Nat) (b : Int) : List Char :=
  let bn : Nat := if b < 0 then ((s.length : Int) + b).toNat else b.toNat
  (s.take bn).drop a

/-- The characters removed by Python's `str.strip()`. -/
def isPySpace (c : Char) : Bool :=
  c == ' ' || c == '\t' || c == '\n' || c == '\r' || c == '\x0b' || c == '\x0c'

/-- Python's `s.strip()`: remove leading and trailing whitespace. -/
def pyStrip (s : List Char) : List Char :=
  ((s.dropWhile isPySpace).reverse.dropWhile isPySpace).reverse

/-- `containsNDisjoint rep n s` holds when `s` contains at least `n` pairwise
disjoint (non-overlapping) copies of `rep`, read left to right. -/
def containsNDisjoint (rep : List Char) : Nat → List Char → Prop
  | 0, _ => True
  | n + 1, s => ∃ a b, s = a ++ rep ++ b ∧ containsNDisjoint rep n b

/-! ### The template unescaper of `verify_webview.py` (step 3)

The script runs `html_template.replace("\\`", "`")` followed by
`html_template.replace("\\$\x7b", "$\x7b")`. -/

/-- The escaped-quote sequence: backslash, backtick. -/
def esc1 : List Char := ['\\', '\x60']

/-- The escaped-interpolation sequence: backslash, dollar, opening brace. -/
def esc2 : List Char := ['\\', '$', '\x7b']

/-- First unescape pass of `verify_webview.py`: escaped backtick to backtick. -/
def pass1 (s : List Char) : List Char := pyReplace esc1 ['\x60'] s

/-- Second unescape pass of `verify_webview.py`: escaped interpolation marker
to literal interpolation marker. -/
def pass2 (s : List Char) : List Char := pyReplace esc2 ['$', '\x7b'] s

/-- The unescaper of `verify_webview.py`: the backtick pass followed by the
interpolation pass. -/
def unescape (s : List Char) : List Char := pass2 (pass1 s)

/-- Modelled from the spec: the intended single-pass decoding that maps each
escaped sequence to the original literal sequence, in one left-to-right scan.
The spec's "original literal backtick and interpolation sequences restored
verbatim" is read as: the result equals this reference decoding. -/
def decodeEsc : List Char → List Char
  | [] => []
  | '\\' :: '\x60' :: r => '\x60' :: decodeEsc r
  | '\\' :: '$' :: '\x7b' :: r => '$' :: '\x7b' :: decodeEsc r
  | c :: r => c :: decodeEsc r

/-- True when the text contains two adjacent backslashes.  Inputs with a
double backslash are exactly the ones on which a greedy find-replace
unescape can leave or fabricate escaped sequences. -/
def hasDoubleBS : List Char → Bool
  | '\\' :: '\\' :: _ => true
  | _ :: r => hasDoubleBS r
  | [] => false

/-! ### The template locator of `verify_webview.py` (steps 1-2) -/

/-- Start marker searched by `verify_webview.py`. -/
def startMarkerW : List Char := "return `<!DOCTYPE html>".data

/-- The `return` plus opening backtick whose length (8) is added to the
start-marker index to obtain the region start. -/
def returnTick : List Char := "return `".data

/-- The doctype declaration: the text at which the extracted region begins. -/
def docTypeW : List Char := "<!DOCTYPE html>".data

/-- The closing-markup end marker searched by `verify_webview.py`. -/
def htmlEndW : List Char := "</html>".data

/-- The backtick-semicolon terminator searched (without a found-check) by
`verify_webview.py`. -/
def termW : List Char := "`;".data

/-- The two failure cases the locator checks for (its `NotFound` error). -/
inductive LocateError where
  | noStartMarker
  | noHtmlEnd
deriving DecidableEq

/-- The template locator of `verify_webview.py` lines 15-33: find the start
marker, advance over the `return` and backtick, find the closing markup tag,
then find the terminator (without checking for failure) and slice.  Returns
the start offset, the end offset exactly as the code computes it (so `-1`
when the terminator is absent), and the extracted raw text. -/
def locateTemplate (content : List Char) : Except LocateError (Int × Int × List Char) :=
  let i0 := pyFind startMarkerW content 0
  if i0 = -1 then .error .noStartMarker
  else
    let s := i0 + (returnTick.length : Int)
    let he := pyFind htmlEndW content s.toNat
    if he = -1 then .error .noHtmlEnd
    else
      let e := pyFind termW content he.toNat
      .ok (s, e, pySliceIE content s.toNat e)

/-- The placeholder token for the command list. -/
def cmdListToken : List Char := "$\x7bcmdList\x7d".data

/-- The inline command-list fixture of `verify_webview.py` (step 4). -/
def cmdListFixtureW : List Char := ("[\n        \x7b\"command\": \"jules git status\", \"description\": \"Show the working tree status.\", \"usage\": \"git status\", \"category\": \"git\"\x7d,\n        \x7b\"command\": \"jules login\", \"description\": \"Authenticate the CLI.\", \"category\": \"auth\", \"actionId\": \"login\"\x7d,\n        \x7b\"command\": \"jules git stash pop\", \"description\": \"Apply stash.\", \"usage\": \"git stash pop\", \"category\": \"git\"\x7d\n    ]").data

/-- The host-API acquisition statement replaced by `verify_webview.py`. -/
def vscodeLineW : List Char := "const vscode = acquireVsCodeApi();".data

/-- The mock host-API object substituted by `verify_webview.py`. -/
def vscodeMockW : List Char := "const vscode = \x7b postMessage: (msg) => console.log(\x27VSCode Msg:\x27, msg) \x7d;".data

/-- The pipeline of `verify_webview.py` up to and including the point where
the hydrated document is written and the browser session is opened: locate,
unescape, substitute the fixture and the mock host API.  An error aborts the
run before the file write and before the browser launch. -/
def webviewPipeline (content : List Char) : Except LocateError (List Char) :=
  match locateTemplate content with
  | .error err => .error err
  | .ok (_, _, raw) =>
    let t := unescape raw
    let t := pyReplace cmdListToken cmdListFixtureW t
    let t := pyReplace vscodeLineW vscodeMockW t
    .ok t

/-- The hydrated document written to `verification/index.html`, when the run
gets that far. -/
def webviewHtmlWritten (content : List Char) : Option (List Char) :=
  (webviewPipeline content).toOption

/-- Whether the run reaches the browser launch (the Playwright session is
opened only after the document is written). -/
def webviewBrowserOpened (content : List Char) : Bool :=
  (webviewPipeline content).isOk

/-- Lines 77-81 of `verify_webview.py`: a card count different from 3 makes
the run call `exit(1)`; otherwise no exit happens at that check. -/
def webviewCountCheckExit (count : Nat) : Option Nat :=
  if count ≠ 3 then some 1 else none

/-! ### `verify_commands.py` -/

/-- The command text whose presence `verify_commands.py` checks in the DOM. -/
def rebaseTextW : List Char := "jules git rebase".data

/-- The mock host-API script block inserted by `create_html`. -/
def mockApiC : List Char := ("\n    <script>\n    function acquireVsCodeApi() \x7b\n        return \x7b\n            postMessage: function(msg) \x7b console.log(\x27postMessage:\x27, msg); \x7d,\n            setState: function(state) \x7b console.log(\x27setState:\x27, state); \x7d,\n            getState: function() \x7b return \x7b\x7d; \x7d\n        \x7d;\n    \x7d\n    </script>\n    ").data

/-- `get_commands` of `verify_commands.py`: the external command's standard
output is captured as text and stripped; nothing is parsed or validated. -/
def get_commands (stdout : List Char) : List Char := pyStrip stdout

/-- `create_html` of `verify_commands.py`: substitute the captured text for
the command-list token, then splice the mock host API after `<head>`. -/
def create_html (commands_json template : List Char) : List Char :=
  let html := pyReplace cmdListToken commands_json template
  pyReplace ("<head>".data) ("<head>\n".data ++ mockApiC) html

/-- Modelled from the spec: the spec's error taxonomy has a
`MalformedFixture` error kind (external command output not valid JSON); the
code has no corresponding check, so the pipeline type carries the error kind
that the code can never produce. -/
inductive FixtureError where
  | malformedFixture
deriving DecidableEq

/-- The fixture-to-document part of `main` in `verify_commands.py`: capture,
strip, substitute.  No JSON validation occurs on this path. -/
def commandsPipeline (stdout template : List Char) : Except FixtureError (List Char) :=
  .ok (create_html (get_commands stdout) template)

/-- The check sequence of `main` in `verify_commands.py` after the page is
loaded, as a pair of the printed diagnostics and the process exit code.
Neither the tab check nor the DOM text check calls `exit`, so `main` always
returns normally with exit code 0. -/
def commandsMain (tabVisible : Bool) (dom : List Char) : List String × Nat :=
  let l1 := if tabVisible then ["Tab found, clicking..."] else ["Tab NOT found!"]
  let l2 := if occursB rebaseTextW dom then
      ["Verified: \x27jules git rebase\x27 is in DOM."]
    else
      ["Error: \x27jules git rebase\x27 NOT in DOM."]
  (l1 ++ l2 ++ ["Screenshot saved to verification/commands.png"], 0)

/-! ### `verify_render.py` -/

/-- One fixture record of `verify_render.py` (a JSON object with a command,
a description, a category and optional usage and action-id fields). -/
structure CommandRec where
  command : String
  description : String
  category : String
  usage : Option String
  actionId : Option String
deriving DecidableEq

/-- JavaScript truthiness of an optional string field: absent and empty
strings are falsy. -/
def strTruthy : Option String → Bool
  | none => false
  | some s => !s.isEmpty

/-- The two-record fixture list of `verify_render.py`. -/
def renderFixtures : List CommandRec :=
  [⟨"jules login", "Auth login", "auth", none, some "login"⟩,
   ⟨"git stash", "Stash changes", "git", some "git stash", none⟩]

/-- The card markup one record produces in `renderCommands` of
`verify_render.py` (the JavaScript template literal, with the action buttons
and the conditional usage block). -/
def cardHtml (c : CommandRec) : String :=
  let actionHtml := (if strTruthy c.actionId then "<button class=\"cmd-btn\">Run</button>" else "")
      ++ "<button class=\"cmd-btn\">Copy</button>"
  let usageHtml := if strTruthy c.usage then "<div class=\"cmd-usage\">" ++ c.usage.getD "" ++ "</div>" else ""
  "<div class=\"cmd-card\">\n                    <div class=\"cmd-header\">\n                        <span class=\"cmd-name\">"
    ++ c.command
    ++ "</span>\n                        <div class=\"cmd-actions\">"
    ++ actionHtml
    ++ "</div>\n                    </div>\n                    <div class=\"cmd-desc\">"
    ++ c.description
    ++ "</div>\n                    "
    ++ usageHtml
    ++ "\n                </div>"

/-- `renderCommands` of `verify_render.py`: map each record to its card and
join with the empty separator; the result becomes the view's innerHTML. -/
def renderCommands (cs : List CommandRec) : String :=
  String.join (cs.map cardHtml)

/-- The opening tag each card contributes, used to count `.cmd-card`
elements in the rendered markup. -/
def cmdCardOpen : List Char := "<div class=\"cmd-card\">".data

/-- The assertion sequence of `verify_render.py`: each failed `assert`
raises, which terminates the Python process with exit code 1. -/
def renderAssertExit (loginVisible stashVisible : Bool) (cardCount : Nat) : Nat :=
  if loginVisible then (if stashVisible then (if cardCount = 2 then 0 else 1) else 1) else 1

/-- Decidable equality for `Except` results, used to evaluate the embedded
pipelines on concrete inputs. -/
instance instDecEqExcept {ε α : Type} [DecidableEq ε] [DecidableEq α] :
    DecidableEq (Except ε α) := fun x y =>
  match x, y with
  | .ok a, .ok b =>
    if h : a = b then .isTrue (by rw [h]) else
      .isFalse (by intro hc; injection hc; contradiction)
  | .error a, .error b =>
    if h : a = b then .isTrue (by rw [h]) else
      .isFalse (by intro hc; injection hc; contradiction)
  | .ok _, .error _ => .isFalse (by intro hc; injection hc)
  | .error _, .ok _ => .isFalse (by intro hc; injection hc)

/-! ## Lemmas about the string primitives -/

theorem begWith_iff (p : List Char) : ∀ s, begWith p s = true ↔ ∃ t, s = p ++ t := by
  induction p with
  | nil => intro s; simp [begWith]
  | cons a as ih =>
    intro s
    cases s with
    | nil =>
      simp only [begWith, List.cons_append]
      constructor
      · intro h; cases h
      · rintro ⟨t, ht⟩; cases ht
    | cons b bs =>
      simp only [begWith, Bool.and_eq_true, beq_iff_eq, List.cons_append, ih bs]
      constructor
      · rintro ⟨rfl, t, rfl⟩; exact ⟨t, rfl⟩
      · rintro ⟨t, ht⟩
        injection ht with h1 h2
        exact ⟨h1.symm, t, h2⟩

theorem begWith_append (p t : List Char) : begWith p (p ++ t) = true :=
  (begWith_iff p _).2 ⟨t, rfl⟩

theorem begWith_length {p s : List Char} (h : begWith p s = true) :
    p.length ≤ s.length := by
  obtain ⟨t, rfl⟩ := (begWith_iff p s).1 h
  simp

theorem begWith_drop {p s : List Char} (h : begWith p s = true) :
    s = p ++ s.drop p.length := by
  obtain ⟨t, rfl⟩ := (begWith_iff p s).1 h
  rw [List.drop_left]

theorem begWith_getElem {p s : List Char} (h : begWith p s = true)
    {i : Nat} (hi : i < p.length) : s[i]? = p[i]? := by
  obtain ⟨t, rfl⟩ := (begWith_iff p s).1 h
  rw [List.getElem?_append_left hi]

theorem begWith_head {a : Char} {as s : List Char}
    (h : begWith (a :: as) s = true) : ∃ bs, s = a :: bs := by
  obtain ⟨t, rfl⟩ := (begWith_iff (a :: as) s).1 h
  exact ⟨as ++ t, rfl⟩

theorem begWith_cons_of_ne {a b : Char} {as bs : List Char} (h : a ≠ b) :
    begWith (a :: as) (b :: bs) = false := by
  simp [begWith, h]

/-! ### Unfolding equations for `pyCount` and `pyReplace` -/

theorem countFuel_nil (pat : List Char) (f : Nat) : countFuel pat f [] = 0 := by
  cases f <;> rfl

theorem countFuel_eq {pat : List Char} (hp : pat ≠ []) :
    ∀ f s g, s.length ≤ f → s.length ≤ g → countFuel pat f s = countFuel pat g s := by
  intro f
  induction f with
  | zero =>
    intro s g hf hg
    have : s = [] := List.length_eq_zero.1 (Nat.le_zero.1 hf)
    subst this
    rw [countFuel_nil, countFuel_nil]
  | succ f ih =>
    intro s g hf hg
    cases s with
    | nil => rw [countFuel_nil, countFuel_nil]
    | cons c cs =>
      have hg1 : 1 ≤ g := by
        simp only [List.length_cons] at hg
        omega
      obtain ⟨g, rfl⟩ : ∃ g2, g = g2 + 1 := ⟨g - 1, by omega⟩
      have hpat : 1 ≤ pat.length := by
        cases pat with
        | nil => exact absurd rfl hp
        | cons x xs => simp
      simp only [List.length_cons] at hf hg
      by_cases h : begWith pat (c :: cs) = true
      · simp only [countFuel, h, if_true]
        congr 1
        apply ih
        · simp only [List.length_drop, List.length_cons]; omega
        · simp only [List.length_drop, List.length_cons]; omega
      · have h2 : begWith pat (c :: cs) = false := by
          cases hb : begWith pat (c :: cs) with
          | true => exact absurd hb h
          | false => rfl
        simp only [countFuel, h2, Bool.false_eq_true, if_false]
        exact ih cs g (by omega) (by omega)

theorem countFuel_congr {pat : List Char} (hp : pat ≠ []) :
    ∀ f s, s.length ≤ f → countFuel pat f s = countFuel pat s.length s :=
  fun f s hf => countFuel_eq hp f s s.length hf (Nat.le_refl _)

theorem pat_isEmpty_false {pat : List Char} (hp : pat ≠ []) :
    pat.isEmpty = false := by
  cases pat with
  | nil => exact absurd rfl hp
  | cons a as => rfl

theorem pyCount_nil {pat : List Char} (hp : pat ≠ []) : pyCount pat [] = 0 := by
  simp only [pyCount, pat_isEmpty_false hp, Bool.false_eq_true, if_false]
  rfl

theorem pyCount_pos {pat : List Char} {c : Char} {cs : List Char}
    (hp : pat ≠ []) (h : begWith pat (c :: cs) = true) :
    pyCount pat (c :: cs) = 1 + pyCount pat ((c :: cs).drop pat.length) := by
  have hlen : pat.length ≤ cs.length + 1 := by
    have := begWith_length h; simpa using this
  have hpat : 1 ≤ pat.length := by
    cases pat with
    | nil => exact absurd rfl hp
    | cons x xs => simp
  simp only [pyCount, pat_isEmpty_false hp, Bool.false_eq_true, if_false,
    List.length_cons, countFuel, h, if_true]
  congr 1
  apply countFuel_congr hp
  simp only [List.length_drop, List.length_cons]
  omega

theorem pyCount_neg {pat : List Char} {c : Char} {cs : List Char}
    (hp : pat ≠ []) (h : begWith pat (c :: cs) = false) :
    pyCount pat (c :: cs) = pyCount pat cs := by
  simp only [pyCount, pat_isEmpty_false hp, Bool.false_eq_true, if_false,
    List.length_cons, countFuel, h]

theorem replaceFuel_nil (pat rep : List Char) (f : Nat) :
    replaceFuel pat rep f [] = [] := by
  cases f <;> rfl

theorem replaceFuel_eq {pat rep : List Char} (hp : pat ≠ []) :
    ∀ f s g, s.length ≤ f → s.length ≤ g →
      replaceFuel pat rep f s = replaceFuel pat rep g s := by
  intro f
  induction f with
  | zero =>
    intro s g hf hg
    have : s = [] := List.length_eq_zero.1 (Nat.le_zero.1 hf)
    subst this
    rw [replaceFuel_nil, replaceFuel_nil]
  | succ f ih =>
    intro s g hf hg
    cases s with
    | nil => rw [replaceFuel_nil, replaceFuel_nil]
    | cons c cs =>
      have hg1 : 1 ≤ g := by
        simp only [List.length_cons] at hg
        omega
      obtain ⟨g, rfl⟩ : ∃ g2, g = g2 + 1 := ⟨g - 1, by omega⟩
      have hpat : 1 ≤ pat.length := by
        cases pat with
        | nil => exact absurd rfl hp
        | cons x xs => simp
      simp only [List.length_cons] at hf hg
      by_cases h : begWith pat (c :: cs) = true
      · simp only [replaceFuel, h, if_true]
        congr 1
        apply ih
        · simp only [List.length_drop, List.length_cons]; omega
        · simp only [List.length_drop, List.length_cons]; omega
      · have h2 : begWith pat (c :: cs) = false := by
          cases hb : begWith pat (c :: cs) with
          | true => exact absurd hb h
          | false => rfl
        simp only [replaceFuel, h2, Bool.false_eq_true, if_false]
        congr 1
        exact ih cs g (by omega) (by omega)

theorem replaceFuel_congr {pat rep : List Char} (hp : pat ≠ []) :
    ∀ f s, s.length ≤ f → replaceFuel pat rep f s = replaceFuel pat rep s.length s :=
  fun f s hf => replaceFuel_eq hp f s s.length hf (Nat.le_refl _)

theorem pyReplace_nil (pat rep : List Char) : pyReplace pat rep [] = [] := by
  cases pat <;> rfl

theorem pyReplace_pos {pat : List Char} (rep : List Char) {c : Char} {cs : List Char}
    (hp : pat ≠ []) (h : begWith pat (c :: cs) = true) :
    pyReplace pat rep (c :: cs) = rep ++ pyReplace pat rep ((c :: cs).drop pat.length) := by
  have hlen : pat.length ≤ cs.length + 1 := by
    have := begWith_length h; simpa using this
  have hpat : 1 ≤ pat.length := by
    cases pat with
    | nil => exact absurd rfl hp
    | cons x xs => simp
  simp only [pyReplace, pat_isEmpty_false hp, Bool.false_eq_true, if_false,
    List.length_cons, replaceFuel, h, if_true]
  congr 1
  apply replaceFuel_congr hp
  simp only [List.length_drop, List.length_cons]
  omega

theorem pyReplace_neg {pat : List Char} (rep : List Char) {c : Char} {cs : List Char}
    (hp : pat ≠ []) (h : begWith pat (c :: cs) = false) :
    pyReplace pat rep (c :: cs) = c :: pyReplace pat rep cs := by
  simp only [pyReplace, pat_isEmpty_false hp, Bool.false_eq_true, if_false,
    List.length_cons, replaceFuel, h]

/-! ### Lemmas about `findAux`, `pyFind` and `occursB` -/

theorem findAux_some {pat : List Char} :
    ∀ {s : List Char} {i j : Nat}, findAux pat s i = some j →
      ∃ k, j = i + k ∧ begWith pat (s.drop k) = true ∧
        ∀ m, m < k → begWith pat (s.drop m) = false := by
  intro s
  induction s with
  | nil =>
    intro i j h
    simp only [findAux] at h
    by_cases hb : begWith pat [] = true
    · rw [if_pos hb] at h
      injection h with h
      exact ⟨0, h.symm, by simpa using hb, by omega⟩
    · rw [if_neg hb] at h
      cases h
  | cons c cs ih =>
    intro i j h
    simp only [findAux] at h
    by_cases hb : begWith pat (c :: cs) = true
    · rw [if_pos hb] at h
      injection h with h
      exact ⟨0, h.symm, by simpa using hb, by omega⟩
    · rw [if_neg hb] at h
      obtain ⟨k, hk, hbeg, hmin⟩ := ih h
      refine ⟨k + 1, by omega, by simpa using hbeg, ?_⟩
      intro m hm
      cases m with
      | zero =>
        simp only [Bool.not_eq_true] at hb
        simpa using hb
      | succ m =>
        simpa using hmin m (by omega)

theorem findAux_none {pat : List Char} :
    ∀ {s : List Char} {i : Nat}, findAux pat s i = none →
      ∀ k, begWith pat (s.drop k) = false := by
  intro s
  induction s with
  | nil =>
    intro i h k
    simp only [findAux] at h
    by_cases hb : begWith pat [] = true
    · rw [if_pos hb] at h; cases h
    · simp only [Bool.not_eq_true] at hb
      simpa using hb
  | cons c cs ih =>
    intro i h k
    simp only [findAux] at h
    by_cases hb : begWith pat (c :: cs) = true
    · rw [if_pos hb] at h; cases h
    · rw [if_neg hb] at h
      cases k with
      | zero =>
        simp only [Bool.not_eq_true] at hb
        simpa using hb
      | succ k => simpa using ih h k

theorem findAux_isSome_of_begWith {pat : List Char} :
    ∀ {s : List Char} {i : Nat} {k : Nat}, begWith pat (s.drop k) = true →
      ∃ j, findAux pat s i = some j := by
  intro s
  induction s with
  | nil =>
    intro i k h
    simp only [List.drop_nil] at h
    exact ⟨i, by simp [findAux, h]⟩
  | cons c cs ih =>
    intro i k h
    by_cases hb : begWith pat (c :: cs) = true
    · exact ⟨i, by simp [findAux, hb]⟩
    · cases k with
      | zero => simp only [List.drop_zero] at h; exact absurd h hb
      | succ k =>
        obtain ⟨j, hj⟩ := ih (i := i + 1) (k := k) (by simpa using h)
        exact ⟨j, by simp [findAux, hb, hj]⟩

theorem occursB_iff (pat : List Char) :
    ∀ s, occursB pat s = true ↔ ∃ a b, s = a ++ pat ++ b := by
  intro s
  induction s with
  | nil =>
    simp only [occursB, List.isEmpty_iff]
    constructor
    · rintro rfl; exact ⟨[], [], rfl⟩
    · rintro ⟨a, b, hab⟩
      cases pat with
      | nil => rfl
      | cons x xs =>
        have := congrArg List.length hab
        simp only [List.length_nil, List.length_append, List.length_cons] at this
        exact absurd this (by omega)
  | cons c cs ih =>
    simp only [occursB, Bool.or_eq_true, ih, begWith_iff]
    constructor
    · rintro (⟨t, ht⟩ | ⟨a, b, hab⟩)
      · exact ⟨[], t, by simpa using ht⟩
      · exact ⟨c :: a, b, by simp [hab]⟩
    · rintro ⟨a, b, hab⟩
      cases a with
      | nil => exact Or.inl ⟨b, by simpa using hab⟩
      | cons x xs =>
        injection hab with h1 h2
        exact Or.inr ⟨xs, b, h2⟩

theorem occursB_false_begWith {pat : List Char} {s : List Char}
    (h : occursB pat s = false) : ∀ k, begWith pat (s.drop k) = false := by
  intro k
  by_contra hb
  have hb2 : begWith pat (s.drop k) = true := by
    cases hx : begWith pat (s.drop k) with
    | true => rfl
    | false => exact absurd hx hb
  obtain ⟨t, ht⟩ := (begWith_iff pat _).1 hb2
  have hocc : occursB pat s = true := by
    refine (occursB_iff pat s).2 ⟨s.take k, t, ?_⟩
    conv_lhs => rw [← List.take_append_drop k s, ht]
    simp
  rw [h] at hocc
  cases hocc

theorem pyFind_eq_neg_one {pat : List Char} {s : List Char} {start : Nat}
    (h : occursB pat (s.drop start) = false) : pyFind pat s start = -1 := by
  unfold pyFind
  cases hf : findAux pat (s.drop start) start with
  | none => rfl
  | some j =>
    obtain ⟨k, _, hbeg, _⟩ := findAux_some hf
    rw [List.drop_drop] at hbeg
    have := occursB_false_begWith h (k := k)
    rw [List.drop_drop] at this
    rw [this] at hbeg
    cases hbeg

theorem pyFind_spec {pat : List Char} {s : List Char} {start : Nat} {j : Int}
    (h : pyFind pat s start = j) (hj : 0 ≤ j) :
    ∃ k : Nat, j = (start : Int) + (k : Int) ∧
      begWith pat (s.drop (start + k)) = true ∧
      ∀ m, m < k → begWith pat (s.drop (start + m)) = false := by
  unfold pyFind at h
  cases hf : findAux pat (s.drop start) start with
  | none =>
    rw [hf] at h
    subst h
    exact absurd hj (by norm_num)
  | some j2 =>
    rw [hf] at h
    change ((j2 : Nat) : Int) = j at h
    obtain ⟨k, hk, hbeg, hmin⟩ := findAux_some hf
    subst hk
    refine ⟨k, by omega, ?_, ?_⟩
    · rw [List.drop_drop] at hbeg
      exact hbeg
    · intro m hm
      have hx := hmin m hm
      rw [List.drop_drop] at hx
      exact hx

/-! ### Substitution lemmas (for the completeness claim about `replace`) -/

theorem pyCount_append_of_mem {pat rep : List Char} (hp : pat ≠ [])
    (hd : ∀ c ∈ pat, c ∉ rep) :
    ∀ (q x : List Char), (∀ c ∈ q, c ∈ rep) → pyCount pat (q ++ x) = pyCount pat x := by
  intro q
  induction q with
  | nil => intro x _; rfl
  | cons d q ih =>
    intro x hq
    have hne : begWith pat (d :: (q ++ x)) = false := by
      cases pat with
      | nil => exact absurd rfl hp
      | cons p0 ps =>
        cases hb : begWith (p0 :: ps) (d :: (q ++ x)) with
        | false => rfl
        | true =>
          obtain ⟨bs, hbs⟩ := begWith_head hb
          injection hbs with h1 h2
          exact absurd (h1 ▸ hq d (List.mem_cons_self d q))
            (hd p0 (List.mem_cons_self p0 ps))
    rw [List.cons_append, pyCount_neg hp hne]
    exact ih x (fun c hc => hq c (List.mem_cons_of_mem d hc))

theorem begWith_replace {pat rep : List Char} (hp : pat ≠ []) (hr : rep ≠ []) :
    ∀ n s q, s.length ≤ n → (∀ c ∈ q, c ∉ rep) →
      begWith q (pyReplace pat rep s) = true → q = [] ∨ begWith q s = true := by
  intro n
  induction n with
  | zero =>
    intro s q hs hd hb
    have : s = [] := List.length_eq_zero.1 (Nat.le_zero.1 hs)
    subst this
    rw [pyReplace_nil] at hb
    cases q with
    | nil => exact Or.inl rfl
    | cons a as => cases hb
  | succ n ih =>
    intro s q hs hd hb
    cases s with
    | nil =>
      rw [pyReplace_nil] at hb
      cases q with
      | nil => exact Or.inl rfl
      | cons a as => cases hb
    | cons c cs =>
      simp only [List.length_cons] at hs
      by_cases hm : begWith pat (c :: cs) = true
      · rw [pyReplace_pos rep hp hm] at hb
        cases q with
        | nil => exact Or.inl rfl
        | cons a as =>
          cases rep with
          | nil => exact absurd rfl hr
          | cons e re =>
            obtain ⟨bs, hbs⟩ := begWith_head hb
            injection hbs with h1 h2
            exact absurd (h1 ▸ List.mem_cons_self e re)
              (hd a (List.mem_cons_self a as))
      · have hm2 : begWith pat (c :: cs) = false := by
          cases hx : begWith pat (c :: cs) with
          | true => exact absurd hx hm
          | false => rfl
        rw [pyReplace_neg rep hp hm2] at hb
        cases q with
        | nil => exact Or.inl rfl
        | cons a as =>
          simp only [begWith, Bool.and_eq_true, beq_iff_eq] at hb
          obtain ⟨rfl, hb2⟩ := hb
          have has : ∀ x ∈ as, x ∉ rep := fun x hx => hd x (List.mem_cons_of_mem _ hx)
          rcases ih cs as (by omega) has hb2 with h | h
          · subst h
            exact Or.inr (by simp [begWith])
          · exact Or.inr (by simp [begWith, h])

theorem pyCount_replace_zero {pat rep : List Char} (hp : pat ≠ []) (hr : rep ≠ [])
    (hd : ∀ c ∈ pat, c ∉ rep) :
    ∀ s, pyCount pat (pyReplace pat rep s) = 0 := by
  suffices H : ∀ n s, s.length ≤ n → pyCount pat (pyReplace pat rep s) = 0 from
    fun s => H s.length s (Nat.le_refl _)
  intro n
  induction n with
  | zero =>
    intro s hs
    have : s = [] := List.length_eq_zero.1 (Nat.le_zero.1 hs)
    subst this
    rw [pyReplace_nil]
    exact pyCount_nil hp
  | succ n ih =>
    intro s hs
    cases s with
    | nil =>
      rw [pyReplace_nil]
      exact pyCount_nil hp
    | cons c cs =>
      simp only [List.length_cons] at hs
      have hpat : 1 ≤ pat.length := by
        cases pat with
        | nil => exact absurd rfl hp
        | cons x xs => simp
      by_cases hm : begWith pat (c :: cs) = true
      · rw [pyReplace_pos rep hp hm,
          pyCount_append_of_mem hp hd rep _ (fun c hc => hc)]
        apply ih
        simp only [List.length_drop, List.length_cons]
        omega
      · have hm2 : begWith pat (c :: cs) = false := by
          cases hx : begWith pat (c :: cs) with
          | true => exact absurd hx hm
          | false => rfl
        rw [pyReplace_neg rep hp hm2]
        have hne : begWith pat (c :: pyReplace pat rep cs) = false := by
          cases hb : begWith pat (c :: pyReplace pat rep cs) with
          | false => rfl
          | true =>
            have : begWith pat (pyReplace pat rep (c :: cs)) = true := by
              rw [pyReplace_neg rep hp hm2]
              exact hb
            rcases begWith_replace hp hr (c :: cs).length (c :: cs) pat
                (Nat.le_refl _) hd this with h | h
            · exact absurd h hp
            · rw [h] at hm2; cases hm2
        rw [pyCount_neg hp hne]
        exact ih cs (by omega)

theorem containsNDisjoint_cons {rep : List Char} {n : Nat} {x : List Char} (c : Char)
    (h : containsNDisjoint rep n x) : containsNDisjoint rep n (c :: x) := by
  cases n with
  | zero => trivial
  | succ n =>
    obtain ⟨a, b, hx, hb⟩ := h
    exact ⟨c :: a, b, by simp [hx], hb⟩

theorem replace_disjoint_copies {pat rep : List Char} (hp : pat ≠ []) :
    ∀ s, containsNDisjoint rep (pyCount pat s) (pyReplace pat rep s) := by
  suffices H : ∀ n s, s.length ≤ n →
      containsNDisjoint rep (pyCount pat s) (pyReplace pat rep s) from
    fun s => H s.length s (Nat.le_refl _)
  intro n
  induction n with
  | zero =>
    intro s hs
    have : s = [] := List.length_eq_zero.1 (Nat.le_zero.1 hs)
    subst this
    rw [pyReplace_nil, pyCount_nil hp]
    trivial
  | succ n ih =>
    intro s hs
    cases s with
    | nil =>
      rw [pyReplace_nil, pyCount_nil hp]
      trivial
    | cons c cs =>
      simp only [List.length_cons] at hs
      have hpat : 1 ≤ pat.length := by
        cases pat with
        | nil => exact absurd rfl hp
        | cons x xs => simp
      by_cases hm : begWith pat (c :: cs) = true
      · rw [pyReplace_pos rep hp hm, pyCount_pos hp hm, Nat.add_comm]
        refine ⟨[], pyReplace pat rep ((c :: cs).drop pat.length), by simp, ?_⟩
        apply ih
        simp only [List.length_drop, List.length_cons]
        omega
      · have hm2 : begWith pat (c :: cs) = false := by
          cases hx : begWith pat (c :: cs) with
          | true => exact absurd hx hm
          | false => rfl
        rw [pyReplace_neg rep hp hm2, pyCount_neg hp hm2]
        exact containsNDisjoint_cons c (ih cs (by omega))

/-! ### Unfolding lemmas for the unescaper -/

theorem esc1_ne_nil : esc1 ≠ [] := by decide

theorem esc2_ne_nil : esc2 ≠ [] := by decide

theorem decode_cons_ne {c : Char} {r : List Char} (h : c ≠ '\\') :
    decodeEsc (c :: r) = c :: decodeEsc r := by
  conv_lhs => unfold decodeEsc
  split
  · next heq => exact absurd heq (by simp)
  · next r2 heq =>
    injection heq with h1 h2
    exact absurd h1 h
  · next r2 heq =>
    injection heq with h1 h2
    exact absurd h1 h
  · next c2 r2 heq =>
    injection heq with h1 h2
    subst h1
    subst h2
    rfl

theorem decode_single (c : Char) : decodeEsc [c] = [c] := by
  by_cases h : c = '\\'
  · subst h; rfl
  · rw [decode_cons_ne h]; rfl

theorem decode_bs1 {d : Char} {r : List Char} (h1 : d ≠ '\x60') (h2 : d ≠ '$') :
    decodeEsc ('\\' :: d :: r) = '\\' :: decodeEsc (d :: r) := by
  conv_lhs => unfold decodeEsc
  split
  · next heq => exact absurd heq (by simp)
  · next r2 heq =>
    injection heq with ha hb
    injection hb with hb1 hb2
    exact absurd hb1 h1
  · next r2 heq =>
    injection heq with ha hb
    injection hb with hb1 hb2
    exact absurd hb1 h2
  · next c2 r2 heq =>
    injection heq with ha hb
    subst ha
    subst hb
    rfl

theorem decode_bs2 {e : Char} {r : List Char} (h : e ≠ '\x7b') :
    decodeEsc ('\\' :: '$' :: e :: r) = '\\' :: decodeEsc ('$' :: e :: r) := by
  conv_lhs => unfold decodeEsc
  split
  · next heq => exact absurd heq (by simp)
  · next r2 heq =>
    injection heq with ha hb
    injection hb with hb1 hb2
    exact absurd hb1 (by decide)
  · next r2 heq =>
    injection heq with ha hb
    injection hb with hb1 hb2
    injection hb2 with hc1 hc2
    exact absurd hc1 h
  · next c2 r2 heq =>
    injection heq with ha hb
    subst ha
    subst hb
    rfl

theorem hdbs_cons {c d : Char} {r : List Char} (h : ¬(c = '\\' ∧ d = '\\')) :
    hasDoubleBS (c :: d :: r) = hasDoubleBS (d :: r) := by
  conv_lhs => unfold hasDoubleBS
  split
  · next heq =>
    injection heq with h1 h2
    injection h2 with h2a h2b
    exact absurd ⟨h1, h2a⟩ h
  · next c2 r2 heq =>
    injection heq with h1 h2
    subst h2
    rfl
  · next heq => cases heq

theorem hdbs_single (c : Char) : hasDoubleBS [c] = false := by
  conv_lhs => unfold hasDoubleBS
  split
  · next heq =>
    injection heq with h1 h2
    cases h2
  · next c2 r2 heq =>
    injection heq with h1 h2
    subst h2
    rfl
  · next heq => cases heq

theorem hdbs_tail {c : Char} {r : List Char} (h : hasDoubleBS (c :: r) = false) :
    hasDoubleBS r = false := by
  cases r with
  | nil => rfl
  | cons d r2 =>
    by_cases hcd : c = '\\' ∧ d = '\\'
    · obtain ⟨rfl, rfl⟩ := hcd
      cases h
    · rw [hdbs_cons hcd] at h
      exact h

theorem begWith_esc1_true (r : List Char) :
    begWith esc1 ('\\' :: '\x60' :: r) = true := by
  simp [esc1, begWith]

theorem begWith_esc1_false1 {c : Char} (r : List Char) (h : c ≠ '\\') :
    begWith esc1 (c :: r) = false := by
  have hb : ('\\' == c) = false := beq_eq_false_iff_ne.2 (Ne.symm h)
  simp [esc1, begWith, hb]

theorem begWith_esc1_false2 {d : Char} (r : List Char) (h : d ≠ '\x60') :
    begWith esc1 ('\\' :: d :: r) = false := by
  have hb : ('\x60' == d) = false := beq_eq_false_iff_ne.2 (Ne.symm h)
  simp [esc1, begWith, hb]

theorem begWith_esc1_bs : begWith esc1 ['\\'] = false := by decide

theorem begWith_esc2_true (r : List Char) :
    begWith esc2 ('\\' :: '$' :: '\x7b' :: r) = true := by
  simp [esc2, begWith]

theorem begWith_esc2_false1 {c : Char} (r : List Char) (h : c ≠ '\\') :
    begWith esc2 (c :: r) = false := by
  have hb : ('\\' == c) = false := beq_eq_false_iff_ne.2 (Ne.symm h)
  simp [esc2, begWith, hb]

theorem begWith_esc2_false2 {d : Char} (r : List Char) (h : d ≠ '$') :
    begWith esc2 ('\\' :: d :: r) = false := by
  have hb : ('$' == d) = false := beq_eq_false_iff_ne.2 (Ne.symm h)
  simp [esc2, begWith, hb]

theorem begWith_esc2_false3 {e : Char} (r : List Char) (h : e ≠ '\x7b') :
    begWith esc2 ('\\' :: '$' :: e :: r) = false := by
  have hb : ('\x7b' == e) = false := beq_eq_false_iff_ne.2 (Ne.symm h)
  simp [esc2, begWith, hb]

theorem begWith_esc2_bs : begWith esc2 ['\\'] = false := by decide

theorem begWith_esc2_bsd : begWith esc2 ['\\', '$'] = false := by decide

theorem pass1_nil : pass1 [] = [] := pyReplace_nil _ _

theorem pass1_esc (r : List Char) : pass1 ('\\' :: '\x60' :: r) = '\x60' :: pass1 r := by
  rw [pass1, pyReplace_pos _ esc1_ne_nil (begWith_esc1_true r)]
  rfl

theorem pass1_cons {c : Char} {r : List Char} (h : begWith esc1 (c :: r) = false) :
    pass1 (c :: r) = c :: pass1 r := by
  rw [pass1, pyReplace_neg _ esc1_ne_nil h]
  rfl

theorem pass2_nil : pass2 [] = [] := pyReplace_nil _ _

theorem pass2_esc (r : List Char) :
    pass2 ('\\' :: '$' :: '\x7b' :: r) = '$' :: '\x7b' :: pass2 r := by
  rw [pass2, pyReplace_pos _ esc2_ne_nil (begWith_esc2_true r)]
  rfl

theorem pass2_cons {c : Char} {r : List Char} (h : begWith esc2 (c :: r) = false) :
    pass2 (c :: r) = c :: pass2 r := by
  rw [pass2, pyReplace_neg _ esc2_ne_nil h]
  rfl

theorem pass1_head (s : List Char) :
    (pass1 s).head? = s.head? ∨
      ((pass1 s).head? = some '\x60' ∧ s.head? = some '\\') := by
  cases s with
  | nil => exact Or.inl (by rw [pass1_nil])
  | cons c cs =>
    by_cases hm : begWith esc1 (c :: cs) = true
    · obtain ⟨t, ht⟩ := (begWith_iff esc1 _).1 hm
      have ht2 : c :: cs = '\\' :: '\x60' :: t := ht
      injection ht2 with h1 h2
      subst h1; subst h2
      rw [pass1_esc]
      exact Or.inr ⟨rfl, rfl⟩
    · have hm2 : begWith esc1 (c :: cs) = false := by
        cases hx : begWith esc1 (c :: cs) with
        | true => exact absurd hx hm
        | false => rfl
      rw [pass1_cons hm2]
      exact Or.inl rfl

theorem pass2_head (s : List Char) :
    (pass2 s).head? = s.head? ∨
      ((pass2 s).head? = some '$' ∧ s.head? = some '\\') := by
  cases s with
  | nil => exact Or.inl (by rw [pass2_nil])
  | cons c cs =>
    by_cases hm : begWith esc2 (c :: cs) = true
    · obtain ⟨t, ht⟩ := (begWith_iff esc2 _).1 hm
      have ht2 : c :: cs = '\\' :: '$' :: '\x7b' :: t := ht
      injection ht2 with h1 h2
      subst h1; subst h2
      rw [pass2_esc]
      exact Or.inr ⟨rfl, rfl⟩
    · have hm2 : begWith esc2 (c :: cs) = false := by
        cases hx : begWith esc2 (c :: cs) with
        | true => exact absurd hx hm
        | false => rfl
      rw [pass2_cons hm2]
      exact Or.inl rfl

/-! ### Commutativity of the two unescape passes -/

theorem begWith_esc1_single (c : Char) : begWith esc1 [c] = false := by
  simp [esc1, begWith]

theorem begWith_esc2_single (c : Char) : begWith esc2 [c] = false := by
  simp [esc2, begWith]

theorem begWith_esc2_two (c d : Char) : begWith esc2 [c, d] = false := by
  simp [esc2, begWith]

theorem pass1_single (c : Char) : pass1 [c] = [c] := by
  rw [pass1_cons (begWith_esc1_single c), pass1_nil]

theorem pass2_single (c : Char) : pass2 [c] = [c] := by
  rw [pass2_cons (begWith_esc2_single c), pass2_nil]

theorem pass_commute : ∀ s, pass1 (pass2 s) = pass2 (pass1 s) := by
  suffices H : ∀ n s, s.length ≤ n → pass1 (pass2 s) = pass2 (pass1 s) from
    fun s => H s.length s (Nat.le_refl _)
  intro n
  induction n with
  | zero =>
    intro s hs
    have : s = [] := List.length_eq_zero.1 (Nat.le_zero.1 hs)
    subst this
    simp only [pass2_nil, pass1_nil]
  | succ n ih =>
    intro s hs
    cases s with
    | nil => simp only [pass2_nil, pass1_nil]
    | cons c s2 =>
      cases s2 with
      | nil => simp only [pass2_single, pass1_single]
      | cons d r =>
        simp only [List.length_cons] at hs
        by_cases hc : c = '\\'
        · subst hc
          by_cases hd : d = '\x60'
          · subst hd
            have hb1 : begWith esc2 ('\\' :: '\x60' :: r) = false :=
              begWith_esc2_false2 r (by decide)
            have hb2 : begWith esc2 ('\x60' :: r) = false :=
              begWith_esc2_false1 r (by decide)
            have e1 : pass2 ('\\' :: '\x60' :: r) = '\\' :: '\x60' :: pass2 r := by
              rw [pass2_cons hb1, pass2_cons hb2]
            rw [e1, pass1_esc, pass1_esc,
              pass2_cons (begWith_esc2_false1 (pass1 r) (by decide)),
              ih r (by omega)]
          · by_cases hd2 : d = '$'
            · subst hd2
              cases r with
              | nil => decide
              | cons e r2 =>
                simp only [List.length_cons] at hs
                by_cases he : e = '\x7b'
                · subst he
                  have e1 : pass1 ('\\' :: '$' :: '\x7b' :: r2)
                      = '\\' :: '$' :: '\x7b' :: pass1 r2 := by
                    rw [pass1_cons (begWith_esc1_false2 _ (by decide)),
                      pass1_cons (begWith_esc1_false1 _ (by decide)),
                      pass1_cons (begWith_esc1_false1 _ (by decide))]
                  rw [e1, pass2_esc, pass2_esc,
                    pass1_cons (begWith_esc1_false1 _ (by decide)),
                    pass1_cons (begWith_esc1_false1 _ (by decide)),
                    ih r2 (by omega)]
                · have e1 : pass1 ('\\' :: '$' :: e :: r2)
                      = '\\' :: '$' :: pass1 (e :: r2) := by
                    rw [pass1_cons (begWith_esc1_false2 _ (by decide)),
                      pass1_cons (begWith_esc1_false1 _ (by decide))]
                  have e2 : pass2 ('\\' :: '$' :: e :: r2)
                      = '\\' :: '$' :: pass2 (e :: r2) := by
                    rw [pass2_cons (begWith_esc2_false3 _ he),
                      pass2_cons (begWith_esc2_false1 _ (by decide))]
                  have e4 : pass1 ('\\' :: '$' :: pass2 (e :: r2))
                      = '\\' :: '$' :: pass1 (pass2 (e :: r2)) := by
                    rw [pass1_cons (begWith_esc1_false2 _ (by decide)),
                      pass1_cons (begWith_esc1_false1 _ (by decide))]
                  have e5 : pass2 ('\\' :: '$' :: pass1 (e :: r2))
                      = '\\' :: '$' :: pass2 (pass1 (e :: r2)) := by
                    rcases pass1_head (e :: r2) with hh | ⟨hh, _⟩
                    · cases hY : pass1 (e :: r2) with
                      | nil => rw [hY] at hh; cases hh
                      | cons y0 Y =>
                        rw [hY] at hh
                        simp only [List.head?_cons, Option.some_inj] at hh
                        subst hh
                        rw [pass2_cons (begWith_esc2_false3 _ he),
                          pass2_cons (begWith_esc2_false1 _ (by decide))]
                    · cases hY : pass1 (e :: r2) with
                      | nil => rw [hY] at hh; cases hh
                      | cons y0 Y =>
                        rw [hY] at hh
                        simp only [List.head?_cons, Option.some_inj] at hh
                        subst hh
                        rw [pass2_cons (begWith_esc2_false3 _ (by decide)),
                          pass2_cons (begWith_esc2_false1 _ (by decide))]
                  rw [e1, e2, e4, e5, ih (e :: r2) (by simp only [List.length_cons]; omega)]
            · have e1 : pass1 ('\\' :: d :: r) = '\\' :: pass1 (d :: r) :=
                pass1_cons (begWith_esc1_false2 _ hd)
              have e2 : pass2 ('\\' :: d :: r) = '\\' :: pass2 (d :: r) :=
                pass2_cons (begWith_esc2_false2 _ hd2)
              have e4 : pass1 ('\\' :: pass2 (d :: r))
                  = '\\' :: pass1 (pass2 (d :: r)) := by
                rcases pass2_head (d :: r) with hh | ⟨hh, _⟩
                · cases hY : pass2 (d :: r) with
                  | nil => rw [hY] at hh; cases hh
                  | cons y0 Y =>
                    rw [hY] at hh
                    simp only [List.head?_cons, Option.some_inj] at hh
                    subst hh
                    exact pass1_cons (begWith_esc1_false2 _ hd)
                · cases hY : pass2 (d :: r) with
                  | nil => rw [hY] at hh; cases hh
                  | cons y0 Y =>
                    rw [hY] at hh
                    simp only [List.head?_cons, Option.some_inj] at hh
                    subst hh
                    exact pass1_cons (begWith_esc1_false2 _ (by decide))
              have e5 : pass2 ('\\' :: pass1 (d :: r))
                  = '\\' :: pass2 (pass1 (d :: r)) := by
                rcases pass1_head (d :: r) with hh | ⟨hh, _⟩
                · cases hY : pass1 (d :: r) with
                  | nil => rw [hY] at hh; cases hh
                  | cons y0 Y =>
                    rw [hY] at hh
                    simp only [List.head?_cons, Option.some_inj] at hh
                    subst hh
                    exact pass2_cons (begWith_esc2_false2 _ hd2)
                · cases hY : pass1 (d :: r) with
                  | nil => rw [hY] at hh; cases hh
                  | cons y0 Y =>
                    rw [hY] at hh
                    simp only [List.head?_cons, Option.some_inj] at hh
                    subst hh
                    exact pass2_cons (begWith_esc2_false2 _ (by decide))
              rw [e1, e2, e4, e5, ih (d :: r) (by simp only [List.length_cons]; omega)]
        · have e1 : pass1 (c :: d :: r) = c :: pass1 (d :: r) :=
            pass1_cons (begWith_esc1_false1 _ hc)
          have e2 : pass2 (c :: d :: r) = c :: pass2 (d :: r) :=
            pass2_cons (begWith_esc2_false1 _ hc)
          rw [e1, e2, pass1_cons (begWith_esc1_false1 _ hc),
            pass2_cons (begWith_esc2_false1 _ hc), ih (d :: r) (by simp only [List.length_cons]; omega)]

/-! ### The composed unescape agrees with the reference decoding -/

theorem occursB_cons (pat : List Char) (x : Char) (xs : List Char) :
    occursB pat (x :: xs) = (begWith pat (x :: xs) || occursB pat xs) := rfl

theorem decode_head (c : Char) (cs : List Char) :
    ∃ x X, decodeEsc (c :: cs) = x :: X ∧ (x = c ∨ x = '\x60' ∨ x = '$') := by
  by_cases hc : c = '\\'
  · subst hc
    cases cs with
    | nil => exact ⟨'\\', [], rfl, Or.inl rfl⟩
    | cons d cs2 =>
      by_cases hd : d = '\x60'
      · subst hd
        exact ⟨'\x60', decodeEsc cs2, rfl, Or.inr (Or.inl rfl)⟩
      · by_cases hd2 : d = '$'
        · subst hd2
          cases cs2 with
          | nil => exact ⟨'\\', ['$'], rfl, Or.inl rfl⟩
          | cons e cs3 =>
            by_cases he : e = '\x7b'
            · subst he
              exact ⟨'$', '\x7b' :: decodeEsc cs3, rfl, Or.inr (Or.inr rfl)⟩
            · exact ⟨'\\', decodeEsc ('$' :: e :: cs3), decode_bs2 he, Or.inl rfl⟩
        · exact ⟨'\\', decodeEsc (d :: cs2), decode_bs1 hd hd2, Or.inl rfl⟩
  · exact ⟨c, decodeEsc cs, decode_cons_ne hc, Or.inl rfl⟩

theorem unescape_eq_decode : ∀ s, hasDoubleBS s = false → unescape s = decodeEsc s := by
  suffices H : ∀ n s, s.length ≤ n → hasDoubleBS s = false →
      pass2 (pass1 s) = decodeEsc s from
    fun s hdbs => H s.length s (Nat.le_refl _) hdbs
  intro n
  induction n with
  | zero =>
    intro s hs _
    have : s = [] := List.length_eq_zero.1 (Nat.le_zero.1 hs)
    subst this
    simp only [pass1_nil, pass2_nil]
    rfl
  | succ n ih =>
    intro s hs hdbs
    cases s with
    | nil =>
      simp only [pass1_nil, pass2_nil]
      rfl
    | cons c s2 =>
      cases s2 with
      | nil => rw [pass1_single, pass2_single, decode_single]
      | cons d r =>
        simp only [List.length_cons] at hs
        by_cases hc : c = '\\'
        · subst hc
          have hdne : d ≠ '\\' := by
            intro hdd
            subst hdd
            have ht : hasDoubleBS ('\\' :: '\\' :: r) = true := rfl
            rw [ht] at hdbs
            cases hdbs
          by_cases hd : d = '\x60'
          · subst hd
            rw [pass1_esc, pass2_cons (begWith_esc2_false1 _ (by decide))]
            have hdec : decodeEsc ('\\' :: '\x60' :: r) = '\x60' :: decodeEsc r := rfl
            rw [hdec, ih r (by omega) (hdbs_tail (hdbs_tail hdbs))]
          · by_cases hd2 : d = '$'
            · subst hd2
              cases r with
              | nil => decide
              | cons e r2 =>
                simp only [List.length_cons] at hs
                by_cases he : e = '\x7b'
                · subst he
                  have e1 : pass1 ('\\' :: '$' :: '\x7b' :: r2)
                      = '\\' :: '$' :: '\x7b' :: pass1 r2 := by
                    rw [pass1_cons (begWith_esc1_false2 _ (by decide)),
                      pass1_cons (begWith_esc1_false1 _ (by decide)),
                      pass1_cons (begWith_esc1_false1 _ (by decide))]
                  rw [e1, pass2_esc]
                  have hdec : decodeEsc ('\\' :: '$' :: '\x7b' :: r2)
                      = '$' :: '\x7b' :: decodeEsc r2 := rfl
                  rw [hdec, ih r2 (by omega) (hdbs_tail (hdbs_tail (hdbs_tail hdbs)))]
                · have e1 : pass1 ('\\' :: '$' :: e :: r2)
                      = '\\' :: '$' :: pass1 (e :: r2) := by
                    rw [pass1_cons (begWith_esc1_false2 _ (by decide)),
                      pass1_cons (begWith_esc1_false1 _ (by decide))]
                  have e5 : pass2 ('\\' :: '$' :: pass1 (e :: r2))
                      = '\\' :: '$' :: pass2 (pass1 (e :: r2)) := by
                    rcases pass1_head (e :: r2) with hh | ⟨hh, _⟩
                    · cases hY : pass1 (e :: r2) with
                      | nil => rw [hY] at hh; cases hh
                      | cons y0 Y =>
                        rw [hY] at hh
                        simp only [List.head?_cons, Option.some_inj] at hh
                        subst hh
                        rw [pass2_cons (begWith_esc2_false3 _ he),
                          pass2_cons (begWith_esc2_false1 _ (by decide))]
                    · cases hY : pass1 (e :: r2) with
                      | nil => rw [hY] at hh; cases hh
                      | cons y0 Y =>
                        rw [hY] at hh
                        simp only [List.head?_cons, Option.some_inj] at hh
                        subst hh
                        rw [pass2_cons (begWith_esc2_false3 _ (by decide)),
                          pass2_cons (begWith_esc2_false1 _ (by decide))]
                  rw [e1, e5, decode_bs2 he,
                    decode_cons_ne (show ('$' : Char) ≠ '\\' by decide),
                    ih (e :: r2) (by simp only [List.length_cons]; omega)
                      (hdbs_tail (hdbs_tail hdbs))]
            · have e1 : pass1 ('\\' :: d :: r) = '\\' :: pass1 (d :: r) :=
                pass1_cons (begWith_esc1_false2 _ hd)
              have e5 : pass2 ('\\' :: pass1 (d :: r))
                  = '\\' :: pass2 (pass1 (d :: r)) := by
                rcases pass1_head (d :: r) with hh | ⟨hh, _⟩
                · cases hY : pass1 (d :: r) with
                  | nil => rw [hY] at hh; cases hh
                  | cons y0 Y =>
                    rw [hY] at hh
                    simp only [List.head?_cons, Option.some_inj] at hh
                    subst hh
                    exact pass2_cons (begWith_esc2_false2 _ hd2)
                · cases hY : pass1 (d :: r) with
                  | nil => rw [hY] at hh; cases hh
                  | cons y0 Y =>
                    rw [hY] at hh
                    simp only [List.head?_cons, Option.some_inj] at hh
                    subst hh
                    exact pass2_cons (begWith_esc2_false2 _ (by decide))
              rw [e1, e5, decode_bs1 hd hd2,
                ih (d :: r) (by simp only [List.length_cons]; omega) (hdbs_tail hdbs)]
        · rw [pass1_cons (begWith_esc1_false1 _ hc),
            pass2_cons (begWith_esc2_false1 _ hc),
            decode_cons_ne hc,
            ih (d :: r) (by simp only [List.length_cons]; omega) (hdbs_tail hdbs)]

theorem decode_no_esc : ∀ s, hasDoubleBS s = false →
    occursB esc1 (decodeEsc s) = false ∧ occursB esc2 (decodeEsc s) = false := by
  suffices H : ∀ n s, s.length ≤ n → hasDoubleBS s = false →
      occursB esc1 (decodeEsc s) = false ∧ occursB esc2 (decodeEsc s) = false from
    fun s hdbs => H s.length s (Nat.le_refl _) hdbs
  intro n
  induction n with
  | zero =>
    intro s hs _
    have : s = [] := List.length_eq_zero.1 (Nat.le_zero.1 hs)
    subst this
    exact ⟨by decide, by decide⟩
  | succ n ih =>
    intro s hs hdbs
    cases s with
    | nil => exact ⟨by decide, by decide⟩
    | cons c s2 =>
      cases s2 with
      | nil =>
        rw [decode_single]
        refine ⟨?_, ?_⟩
        · rw [occursB_cons, begWith_esc1_single]
          decide
        · rw [occursB_cons, begWith_esc2_single]
          decide
      | cons d r =>
        simp only [List.length_cons] at hs
        by_cases hc : c = '\\'
        · subst hc
          have hdne : d ≠ '\\' := by
            intro hdd
            subst hdd
            have ht : hasDoubleBS ('\\' :: '\\' :: r) = true := rfl
            rw [ht] at hdbs
            cases hdbs
          by_cases hd : d = '\x60'
          · subst hd
            have hdec : decodeEsc ('\\' :: '\x60' :: r) = '\x60' :: decodeEsc r := rfl
            rw [hdec]
            obtain ⟨ih1, ih2⟩ := ih r (by omega) (hdbs_tail (hdbs_tail hdbs))
            constructor
            · rw [occursB_cons, begWith_esc1_false1 _ (by decide), ih1]
              rfl
            · rw [occursB_cons, begWith_esc2_false1 _ (by decide), ih2]
              rfl
          · by_cases hd2 : d = '$'
            · subst hd2
              cases r with
              | nil => exact ⟨by decide, by decide⟩
              | cons e r2 =>
                simp only [List.length_cons] at hs
                by_cases he : e = '\x7b'
                · subst he
                  have hdec : decodeEsc ('\\' :: '$' :: '\x7b' :: r2)
                      = '$' :: '\x7b' :: decodeEsc r2 := rfl
                  rw [hdec]
                  obtain ⟨ih1, ih2⟩ := ih r2 (by omega)
                    (hdbs_tail (hdbs_tail (hdbs_tail hdbs)))
                  constructor
                  · rw [occursB_cons, begWith_esc1_false1 _ (by decide),
                      occursB_cons, begWith_esc1_false1 _ (by decide), ih1]
                    rfl
                  · rw [occursB_cons, begWith_esc2_false1 _ (by decide),
                      occursB_cons, begWith_esc2_false1 _ (by decide), ih2]
                    rfl
                · rw [decode_bs2 he,
                    decode_cons_ne (show ('$' : Char) ≠ '\\' by decide)]
                  obtain ⟨x, X, hX, hx⟩ := decode_head e r2
                  rw [hX]
                  obtain ⟨ih1, ih2⟩ := ih (e :: r2)
                    (by simp only [List.length_cons]; omega)
                    (hdbs_tail (hdbs_tail hdbs))
                  rw [hX] at ih1 ih2
                  have hxne : x ≠ '\x7b' := by
                    rcases hx with rfl | rfl | rfl
                    · exact he
                    · decide
                    · decide
                  constructor
                  · rw [occursB_cons, begWith_esc1_false2 _ (by decide),
                      occursB_cons, begWith_esc1_false1 _ (by decide), ih1]
                    rfl
                  · rw [occursB_cons, begWith_esc2_false3 _ hxne,
                      occursB_cons, begWith_esc2_false1 _ (by decide), ih2]
                    rfl
            · rw [decode_bs1 hd hd2, decode_cons_ne hdne]
              obtain ⟨ih1, ih2⟩ := ih (d :: r)
                (by simp only [List.length_cons]; omega) (hdbs_tail hdbs)
              rw [decode_cons_ne hdne] at ih1 ih2
              constructor
              · rw [occursB_cons, begWith_esc1_false2 _ hd, ih1]
                rfl
              · rw [occursB_cons, begWith_esc2_false2 _ hd2, ih2]
                rfl
        · rw [decode_cons_ne hc]
          obtain ⟨ih1, ih2⟩ := ih (d :: r)
            (by simp only [List.length_cons]; omega) (hdbs_tail hdbs)
          constructor
          · rw [occursB_cons, begWith_esc1_false1 _ hc, ih1]
            rfl
          · rw [occursB_cons, begWith_esc2_false1 _ hc, ih2]
            rfl

/-! ### Lemmas about the template locator -/

theorem locate_err_start {content : List Char}
    (h : occursB startMarkerW content = false) :
    locateTemplate content = .error .noStartMarker := by
  have hf : pyFind startMarkerW content 0 = -1 := by
    apply pyFind_eq_neg_one
    rw [List.drop_zero]
    exact h
  unfold locateTemplate
  rw [hf]
  rfl

theorem locate_err_end {content : List Char} {i0 : Int}
    (h1 : pyFind startMarkerW content 0 = i0) (h2 : 0 ≤ i0)
    (h3 : occursB htmlEndW (content.drop (i0 + 8).toNat) = false) :
    locateTemplate content = .error .noHtmlEnd := by
  have hrt : (returnTick.length : Int) = 8 := by decide
  have hf : pyFind htmlEndW content (i0 + 8).toNat = -1 := pyFind_eq_neg_one h3
  unfold locateTemplate
  rw [h1, if_neg (by omega : ¬ i0 = -1)]
  simp only [hrt, hf]
  rw [if_pos trivial]

theorem locate_ok_spec {content : List Char} {i0 he e : Int}
    (h1 : pyFind startMarkerW content 0 = i0) (h2 : 0 ≤ i0)
    (h3 : pyFind htmlEndW content (i0 + 8).toNat = he) (h4 : 0 ≤ he)
    (h5 : pyFind termW content he.toNat = e) (h6 : 0 ≤ e) :
    locateTemplate content = .ok (i0 + 8, e, pySliceIE content (i0 + 8).toNat e)
    ∧ i0 + 8 + 16 ≤ e
    ∧ e + 2 ≤ (content.length : Int)
    ∧ i0 + 8 + 15 ≤ he
    ∧ begWith docTypeW (pySliceIE content (i0 + 8).toNat e) = true := by
  obtain ⟨k1, hi0, hsm, -⟩ := pyFind_spec h1 h2
  have hsm2 : begWith startMarkerW (content.drop k1) = true := by
    simpa using hsm
  have hsn : (i0 + 8).toNat = k1 + 8 := by omega
  obtain ⟨t1, ht1⟩ := (begWith_iff _ _).1 hsm2
  have hdd : content.drop (k1 + 8) = docTypeW ++ t1 := by
    have hsplit : content.drop (k1 + 8) = (content.drop k1).drop 8 := by
      rw [List.drop_drop]
    rw [hsplit, ht1, List.drop_append_of_le_length (by decide)]
    congr 1
  have hdoc : begWith docTypeW (content.drop (k1 + 8)) = true := by
    rw [hdd]
    exact begWith_append _ _
  rw [hsn] at h3
  obtain ⟨k2, hhe, hhe2, hmin2⟩ := pyFind_spec h3 h4
  have hk2 : 15 ≤ k2 := by
    by_contra hlt
    push_neg at hlt
    rcases Nat.eq_zero_or_pos k2 with hk0 | hkpos
    · subst hk0
      rw [Nat.add_zero] at hhe2
      have e1 := begWith_getElem hhe2 (i := 1) (by decide)
      have e2 := begWith_getElem hdoc (i := 1) (by decide)
      rw [e1] at e2
      exact absurd e2 (by decide)
    · have hdd2 : content.drop (k1 + 8 + k2) = docTypeW.drop k2 ++ t1 := by
        have hsplit : content.drop (k1 + 8 + k2) = (content.drop (k1 + 8)).drop k2 := by
          rw [List.drop_drop]
        have hdl : docTypeW.length = 15 := by decide
        rw [hsplit, hdd, List.drop_append_of_le_length (by omega)]
      have hh := begWith_getElem hhe2 (i := 0) (by decide)
      rw [hdd2] at hh
      have hlen2 : 0 < (docTypeW.drop k2).length := by
        simp only [List.length_drop]
        have : docTypeW.length = 15 := by decide
        omega
      rw [List.getElem?_append_left hlen2, List.getElem?_drop, Nat.add_zero] at hh
      have hno : ∀ m, m < 15 → 1 ≤ m → docTypeW[m]? ≠ some '<' := by decide
      exact absurd (hh.trans (by decide)) (hno k2 hlt hkpos)
  have hhen : he.toNat = k1 + 8 + k2 := by omega
  rw [hhen] at h5
  obtain ⟨k3, he3, hterm, hmin3⟩ := pyFind_spec h5 h6
  have hk3 : 1 ≤ k3 := by
    rcases Nat.eq_zero_or_pos k3 with h0 | h
    · subst h0
      rw [Nat.add_zero] at hterm
      have e1 := begWith_getElem hterm (i := 0) (by decide)
      have e2 := begWith_getElem hhe2 (i := 0) (by decide)
      rw [e1] at e2
      exact absurd e2 (by decide)
    · exact h
  have hlen3 : k1 + 8 + k2 + k3 + 2 ≤ content.length := by
    have hl := begWith_length hterm
    have h2t : termW.length = 2 := by decide
    rw [h2t, List.length_drop] at hl
    omega
  have hrt : (returnTick.length : Int) = 8 := by decide
  have hok : locateTemplate content
      = .ok (i0 + 8, e, pySliceIE content (i0 + 8).toNat e) := by
    unfold locateTemplate
    rw [h1, if_neg (by omega : ¬ i0 = -1)]
    simp only [hrt]
    rw [hsn, h3, if_neg (by omega : ¬ he = -1), hhen, h5]
  have hreg : begWith docTypeW (pySliceIE content (i0 + 8).toNat e) = true := by
    have hslice : pySliceIE content (i0 + 8).toNat e
        = (content.drop (k1 + 8)).take (e.toNat - (k1 + 8)) := by
      unfold pySliceIE
      rw [if_neg (by omega : ¬ e < 0), hsn, List.drop_take]
    have hN : e.toNat - (k1 + 8) = docTypeW.length + (e.toNat - (k1 + 8) - 15) := by
      have : docTypeW.length = 15 := by decide
      omega
    rw [hslice, hdd, hN, List.take_append]
    exact begWith_append _ _
  exact ⟨hok, by omega, by omega, by omega, hreg⟩

/-! ## Claim theorems -/

/-- Claim C1: the spec says every verification script exits zero on full
success and non-zero when a required DOM element or text is missing — in
particular when the expected command text is absent from the rendered DOM.
`verify_webview.py` does exit non-zero on a count mismatch, but
`verify_commands.py` prints its `Error: ... NOT in DOM.` diagnostic and then
finishes normally with exit code 0, so the code contradicts the claim on
that script: evaluated on a DOM without the expected text (and without the
tab), the run prints the error line yet the exit code is 0. -/
theorem claim1_commands_exit_zero_bug :
    occursB rebaseTextW [] = false
    ∧ (commandsMain false []).2 = 0
    ∧ "Error: \x27jules git rebase\x27 NOT in DOM." ∈ (commandsMain false []).1
    ∧ webviewCountCheckExit 2 = some 1
    ∧ webviewCountCheckExit 3 = none := by
  exact ⟨by decide, rfl, by decide, rfl, rfl⟩

/-- Claim C2, counterexample: a source text that contains the start marker
and the closing `</html>` end marker in the correct order but no
backtick-semicolon terminator.  The locator does not fail: it returns a
region whose end offset is the raw find result `-1`, violating the bound
`0 <= startOffset < endOffset`. -/
theorem claim2_counterexample :
    occursB startMarkerW ("return `<!DOCTYPE html></html>".data) = true
    ∧ occursB htmlEndW (("return `<!DOCTYPE html></html>".data).drop 8) = true
    ∧ locateTemplate ("return `<!DOCTYPE html></html>".data)
        = .ok (8, -1, "<!DOCTYPE html></html".data)
    ∧ ¬(0 ≤ (8 : Int) ∧ (8 : Int) < (-1 : Int)
        ∧ (-1 : Int) ≤ (("return `<!DOCTYPE html></html>".data).length : Int)) := by
  exact ⟨by decide, by decide, by decide, by decide⟩

/-- Claim C2 (amended): when the start marker is missing, or `</html>` is
missing after it, `locate` fails with its NotFound error; when the start
marker, `</html>` after it, and a `;`-terminated backtick at or after that
are all found, the returned region satisfies
`0 <= startOffset < endOffset <= len(source)`.  The amendment is forced by
the counterexample: with the terminator absent the code does not fail but
returns endOffset `-1`. -/
theorem claim2_locate_bounds (content : List Char) :
    (occursB startMarkerW content = false →
      locateTemplate content = .error .noStartMarker)
    ∧ (∀ i0 : Int, pyFind startMarkerW content 0 = i0 → 0 ≤ i0 →
        occursB htmlEndW (content.drop (i0 + 8).toNat) = false →
        locateTemplate content = .error .noHtmlEnd)
    ∧ (∀ i0 he e : Int, pyFind startMarkerW content 0 = i0 → 0 ≤ i0 →
        pyFind htmlEndW content (i0 + 8).toNat = he → 0 ≤ he →
        pyFind termW content he.toNat = e → 0 ≤ e →
        locateTemplate content = .ok (i0 + 8, e, pySliceIE content (i0 + 8).toNat e)
        ∧ 0 ≤ i0 + 8 ∧ i0 + 8 < e ∧ e ≤ (content.length : Int)) := by
  refine ⟨locate_err_start, fun i0 h1 h2 h3 => locate_err_end h1 h2 h3, ?_⟩
  intro i0 he e h1 h2 h3 h4 h5 h6
  obtain ⟨hok, hb1, hb2, hb3, hreg⟩ := locate_ok_spec h1 h2 h3 h4 h5 h6
  exact ⟨hok, by omega, by omega, by omega⟩

/-- Witness for claim C2 on a complete template source. -/
theorem claim2_witness :
    pyFind startMarkerW ("return `<!DOCTYPE html><body></body></html>`;".data) 0 = 0
    ∧ pyFind htmlEndW ("return `<!DOCTYPE html><body></body></html>`;".data)
        ((0 : Int) + 8).toNat = 36
    ∧ pyFind termW ("return `<!DOCTYPE html><body></body></html>`;".data)
        ((36 : Int)).toNat = 43
    ∧ (locateTemplate ("return `<!DOCTYPE html><body></body></html>`;".data)
        = .ok ((0 : Int) + 8, 43,
            pySliceIE ("return `<!DOCTYPE html><body></body></html>`;".data)
              ((0 : Int) + 8).toNat 43)
      ∧ 0 ≤ (0 : Int) + 8 ∧ (0 : Int) + 8 < 43
      ∧ (43 : Int) ≤ (("return `<!DOCTYPE html><body></body></html>`;".data).length : Int)) :=
  ⟨by decide, by decide, by decide,
    (claim2_locate_bounds ("return `<!DOCTYPE html><body></body></html>`;".data)).2.2
      0 36 43 (by decide) (by decide) (by decide) (by decide) (by decide) (by decide)⟩

/-- Claim C3: when the `</html>` end marker is absent after the first
occurrence of the start marker, the locator fails with its NotFound error
and the `verify_webview.py` run aborts before the hydrated document is
written and before any browser session is opened (and hence before any
screenshot can be produced, since screenshots happen inside the session). -/
theorem claim3_missing_end_aborts (content : List Char) (i0 : Int)
    (h1 : pyFind startMarkerW content 0 = i0) (h2 : 0 ≤ i0)
    (h3 : occursB htmlEndW (content.drop (i0 + 8).toNat) = false) :
    locateTemplate content = .error .noHtmlEnd
    ∧ webviewPipeline content = .error .noHtmlEnd
    ∧ webviewHtmlWritten content = none
    ∧ webviewBrowserOpened content = false := by
  have hloc := locate_err_end h1 h2 h3
  refine ⟨hloc, ?_, ?_, ?_⟩
  · unfold webviewPipeline
    rw [hloc]
  · unfold webviewHtmlWritten webviewPipeline
    rw [hloc]
    rfl
  · unfold webviewBrowserOpened webviewPipeline
    rw [hloc]
    rfl

/-- Witness for claim C3 on a source whose template never closes. -/
theorem claim3_witness :
    pyFind startMarkerW ("return `<!DOCTYPE html><body>".data) 0 = 0
    ∧ occursB htmlEndW (("return `<!DOCTYPE html><body>".data).drop ((0 : Int) + 8).toNat) = false
    ∧ (locateTemplate ("return `<!DOCTYPE html><body>".data) = .error .noHtmlEnd
      ∧ webviewPipeline ("return `<!DOCTYPE html><body>".data) = .error .noHtmlEnd
      ∧ webviewHtmlWritten ("return `<!DOCTYPE html><body>".data) = none
      ∧ webviewBrowserOpened ("return `<!DOCTYPE html><body>".data) = false) :=
  ⟨by decide, by decide,
    claim3_missing_end_aborts ("return `<!DOCTYPE html><body>".data) 0
      (by decide) (by decide) (by decide)⟩

/-- Claim C4, counterexample: the template `abb` contains the token `ab`
exactly once; substituting the replacement `a` yields `ab`, which still
contains one occurrence of the token, so "zero remaining occurrences" fails
(a replacement boundary recreated the token). -/
theorem claim4_counterexample :
    pyCount ("ab".data) ("abb".data) = 1
    ∧ pyReplace ("ab".data) ("a".data) ("abb".data) = "ab".data
    ∧ ¬ pyCount ("ab".data) (pyReplace ("ab".data) ("a".data) ("abb".data)) = 0 := by
  exact ⟨by decide, by decide, by decide⟩

/-- Claim C4 (amended): for a nonempty token occurring exactly `n` times in
the template and a nonempty replacement sharing no character with the token,
`replace` leaves zero occurrences of the token and the result contains at
least `n` pairwise disjoint copies of the replacement text.  The character
condition and the weakening from "exactly n" to "at least n disjoint
copies" are forced by boundary effects such as the counterexample. -/
theorem claim4_substitution (tmpl pat rep : List Char) (n : Nat)
    (hp : pat ≠ []) (hr : rep ≠ []) (hd : ∀ c ∈ pat, c ∉ rep)
    (hn : pyCount pat tmpl = n) :
    pyCount pat (pyReplace pat rep tmpl) = 0
    ∧ containsNDisjoint rep n (pyReplace pat rep tmpl) := by
  refine ⟨pyCount_replace_zero hp hr hd tmpl, ?_⟩
  rw [← hn]
  exact replace_disjoint_copies hp tmpl

/-- Witness for claim C4 with the command-list token occurring twice. -/
theorem claim4_witness :
    cmdListToken ≠ []
    ∧ "[1, 2]".data ≠ ([] : List Char)
    ∧ (∀ c ∈ cmdListToken, c ∉ "[1, 2]".data)
    ∧ pyCount cmdListToken ("<ul>$\x7bcmdList\x7d</ul><p>$\x7bcmdList\x7d</p>".data) = 2
    ∧ (pyCount cmdListToken
        (pyReplace cmdListToken ("[1, 2]".data)
          ("<ul>$\x7bcmdList\x7d</ul><p>$\x7bcmdList\x7d</p>".data)) = 0
      ∧ containsNDisjoint ("[1, 2]".data) 2
          (pyReplace cmdListToken ("[1, 2]".data)
            ("<ul>$\x7bcmdList\x7d</ul><p>$\x7bcmdList\x7d</p>".data))) :=
  ⟨by decide, by decide, by decide, by decide,
    claim4_substitution ("<ul>$\x7bcmdList\x7d</ul><p>$\x7bcmdList\x7d</p>".data)
      cmdListToken ("[1, 2]".data) 2 (by decide) (by decide) (by decide) (by decide)⟩

/-- Claim C5, counterexample: the text backslash-backslash-backtick followed
by an escaped interpolation marker contains both escape sequences, yet one
application of the unescaper leaves an escaped-quote sequence in the result
(the doubled backslash makes the greedy pass recreate It). -/
theorem claim5_counterexample :
    occursB esc1 ("\\\\\x60\\$\x7b".data) = true
    ∧ occursB esc2 ("\\\\\x60\\$\x7b".data) = true
    ∧ occursB esc1 (unescape ("\\\\\x60\\$\x7b".data)) = true := by
  exact ⟨by decide, by decide, by decide⟩

/-- Claim C5 (amended): for a template containing both escape sequences and
no doubled backslash, one application of `unescape` equals the single-pass
reference decoding (each escaped sequence restored to its literal text
verbatim) and the result contains zero remaining escaped sequences.  The
no-double-backslash hypothesis is forced by the counterexample. -/
theorem claim5_unescape (t : List Char)
    (he1 : occursB esc1 t = true) (he2 : occursB esc2 t = true)
    (hdbs : hasDoubleBS t = false) :
    unescape t = decodeEsc t
    ∧ occursB esc1 (unescape t) = false
    ∧ occursB esc2 (unescape t) = false := by
  have hd := unescape_eq_decode t hdbs
  obtain ⟨n1, n2⟩ := decode_no_esc t hdbs
  exact ⟨hd, by rw [hd]; exact n1, by rw [hd]; exact n2⟩

/-- Witness for claim C5 on a well-formed escaped template fragment. -/
theorem claim5_witness :
    occursB esc1 ("a\\\x60b\\$\x7bc".data) = true
    ∧ occursB esc2 ("a\\\x60b\\$\x7bc".data) = true
    ∧ hasDoubleBS ("a\\\x60b\\$\x7bc".data) = false
    ∧ (unescape ("a\\\x60b\\$\x7bc".data) = decodeEsc ("a\\\x60b\\$\x7bc".data)
      ∧ occursB esc1 (unescape ("a\\\x60b\\$\x7bc".data)) = false
      ∧ occursB esc2 (unescape ("a\\\x60b\\$\x7bc".data)) = false) :=
  ⟨by decide, by decide, by decide,
    claim5_unescape ("a\\\x60b\\$\x7bc".data) (by decide) (by decide) (by decide)⟩

/-- Claim C6: the unescaper is not idempotent — on the text
backslash-backslash-backtick one application yields an escaped-quote
sequence, and a second application unescapes it again, giving a different
result. -/
theorem claim6_not_idempotent :
    ∃ t : List Char, unescape (unescape t) ≠ unescape t :=
  ⟨"\\\\\x60".data, by decide⟩

/-- Claim C7: neither escape sequence is a prefix of the other, the two
find-replace passes commute on every input text, and on templates without a
doubled backslash either order performs exactly the single reference
decoding — so neither order double-unescapes. -/
theorem claim7_pass_order :
    (begWith esc1 esc2 = false ∧ begWith esc2 esc1 = false)
    ∧ (∀ t : List Char, pass1 (pass2 t) = pass2 (pass1 t))
    ∧ (∀ t : List Char, hasDoubleBS t = false →
        pass2 (pass1 t) = decodeEsc t ∧ pass1 (pass2 t) = decodeEsc t) := by
  refine ⟨⟨by decide, by decide⟩, pass_commute, ?_⟩
  intro t hdbs
  have h1 : pass2 (pass1 t) = decodeEsc t := unescape_eq_decode t hdbs
  exact ⟨h1, by rw [pass_commute t]; exact h1⟩

/-- Witness for claim C7. -/
theorem claim7_witness :
    hasDoubleBS ("\\\x60x\\$\x7by".data) = false
    ∧ (pass2 (pass1 ("\\\x60x\\$\x7by".data)) = decodeEsc ("\\\x60x\\$\x7by".data)
      ∧ pass1 (pass2 ("\\\x60x\\$\x7by".data)) = decodeEsc ("\\\x60x\\$\x7by".data)) :=
  ⟨by decide, claim7_pass_order.2.2 ("\\\x60x\\$\x7by".data) (by decide)⟩

/-- Claim C8: the external-fixture pipeline of `verify_commands.py` strips
the captured standard output and substitutes it into the template unchanged
for every possible output string — including the empty string and strings
that are not valid JSON — and never produces a `MalformedFixture` error;
any two outputs with the same trimmed text produce identical documents, so
the substitution step is independent of JSON validity. -/
theorem claim8_fixture_passthrough (stdout template : List Char) :
    (commandsPipeline stdout template).isOk = true
    ∧ commandsPipeline stdout template
        = .ok (create_html (pyStrip stdout) template)
    ∧ (∀ s2 : List Char, pyStrip s2 = pyStrip stdout →
        commandsPipeline s2 template = commandsPipeline stdout template) := by
  refine ⟨rfl, rfl, ?_⟩
  intro s2 hst
  unfold commandsPipeline create_html get_commands
  rw [hst]

/-- Witness for claim C8 on a non-JSON fixture output. -/
theorem claim8_witness :
    (commandsPipeline ("  not json  ".data) ("<head>$\x7bcmdList\x7d".data)).isOk = true
    ∧ commandsPipeline ("  not json  ".data) ("<head>$\x7bcmdList\x7d".data)
        = .ok (create_html (pyStrip ("  not json  ".data)) ("<head>$\x7bcmdList\x7d".data))
    ∧ pyStrip (" not json".data) = pyStrip ("  not json  ".data)
    ∧ commandsPipeline (" not json".data) ("<head>$\x7bcmdList\x7d".data)
        = commandsPipeline ("  not json  ".data) ("<head>$\x7bcmdList\x7d".data) :=
  ⟨(claim8_fixture_passthrough ("  not json  ".data) ("<head>$\x7bcmdList\x7d".data)).1,
    (claim8_fixture_passthrough ("  not json  ".data) ("<head>$\x7bcmdList\x7d".data)).2.1,
    by decide,
    (claim8_fixture_passthrough ("  not json  ".data) ("<head>$\x7bcmdList\x7d".data)).2.2
      (" not json".data) (by decide)⟩

set_option maxRecDepth 16384 in
/-- Claim C9: with the two-record fixture of `verify_render.py`, the markup
produced by `renderCommands` contains exactly 2 card elements and shows both
command texts `jules login` and `git stash`. -/
theorem claim9_render_scenarioA :
    pyCount cmdCardOpen (renderCommands renderFixtures).data = 2
    ∧ occursB ("jules login".data) (renderCommands renderFixtures).data = true
    ∧ occursB ("git stash".data) (renderCommands renderFixtures).data = true := by
  exact ⟨by decide, by decide, by decide⟩

/-- Claim C10, counterexample: on a source with the start marker and
`</html>` but no backtick-semicolon terminator anywhere, extraction still
succeeds, so the extracted region cannot extend "up to the first terminator"
— instead the slice with raw end offset `-1` silently discards the final
character of the source. -/
theorem claim10_counterexample :
    locateTemplate ("return `<!DOCTYPE html></html>x".data)
        = .ok (8, -1, "<!DOCTYPE html></html>".data)
    ∧ occursB termW ("return `<!DOCTYPE html></html>x".data) = false
    ∧ ¬ "<!DOCTYPE html></html>".data
        = ("return `<!DOCTYPE html></html>x".data).drop 8 := by
  exact ⟨by decide, by decide, by decide⟩

/-- Claim C10 (amended): whenever the start marker, the first `</html>`
after it and the first backtick-semicolon terminator at or after that are
all found, the extracted region is exactly the slice from just after the
`return` and backtick up to but excluding that first terminator, and it
begins with `<!DOCTYPE html>`.  The amendment is forced by the
counterexample: extraction also "succeeds" when the terminator is absent,
with a truncated region instead of the stated convention. -/
theorem claim10_region_convention (content : List Char) (i0 he e : Int)
    (h1 : pyFind startMarkerW content 0 = i0) (h2 : 0 ≤ i0)
    (h3 : pyFind htmlEndW content (i0 + 8).toNat = he) (h4 : 0 ≤ he)
    (h5 : pyFind termW content he.toNat = e) (h6 : 0 ≤ e) :
    locateTemplate content = .ok (i0 + 8, e, pySliceIE content (i0 + 8).toNat e)
    ∧ begWith docTypeW (pySliceIE content (i0 + 8).toNat e) = true
    ∧ pySliceIE content (i0 + 8).toNat e
        = (content.take e.toNat).drop (i0 + 8).toNat
    ∧ begWith htmlEndW (content.drop he.toNat) = true
    ∧ (∀ m : Nat, (i0 + 8).toNat ≤ m → m < he.toNat →
        begWith htmlEndW (content.drop m) = false)
    ∧ begWith termW (content.drop e.toNat) = true
    ∧ (∀ m : Nat, he.toNat ≤ m → m < e.toNat →
        begWith termW (content.drop m) = false) := by
  obtain ⟨hok, hb1, hb2, hb3, hreg⟩ := locate_ok_spec h1 h2 h3 h4 h5 h6
  obtain ⟨k1, hi0, hsm, -⟩ := pyFind_spec h1 h2
  have hsn : (i0 + 8).toNat = k1 + 8 := by omega
  rw [hsn] at h3
  obtain ⟨k2, hhe, hhe2, hmin2⟩ := pyFind_spec h3 h4
  have hhen : he.toNat = k1 + 8 + k2 := by omega
  rw [hhen] at h5
  obtain ⟨k3, he3, hterm, hmin3⟩ := pyFind_spec h5 h6
  have hen : e.toNat = k1 + 8 + k2 + k3 := by omega
  refine ⟨hok, hreg, ?_, ?_, ?_, ?_, ?_⟩
  · unfold pySliceIE
    rw [if_neg (by omega : ¬ e < 0)]
  · rw [hhen]
    exact hhe2
  · intro m hm1 hm2
    rw [hsn] at hm1
    rw [hhen] at hm2
    have hm3 : m = k1 + 8 + (m - (k1 + 8)) := by omega
    rw [hm3]
    exact hmin2 (m - (k1 + 8)) (by omega)
  · rw [hen]
    exact hterm
  · intro m hm1 hm2
    rw [hhen] at hm1
    rw [hen] at hm2
    have hm3 : m = k1 + 8 + k2 + (m - (k1 + 8 + k2)) := by omega
    rw [hm3]
    exact hmin3 (m - (k1 + 8 + k2)) (by omega)

/-- Witness for claim C10 on a template with trailing text before the
terminator. -/
theorem claim10_witness :
    pyFind startMarkerW ("return `<!DOCTYPE html><p></p></html>x`;".data) 0 = 0
    ∧ pyFind htmlEndW ("return `<!DOCTYPE html><p></p></html>x`;".data)
        ((0 : Int) + 8).toNat = 30
    ∧ pyFind termW ("return `<!DOCTYPE html><p></p></html>x`;".data)
        ((30 : Int)).toNat = 38
    ∧ (locateTemplate ("return `<!DOCTYPE html><p></p></html>x`;".data)
        = .ok ((0 : Int) + 8, 38,
            pySliceIE ("return `<!DOCTYPE html><p></p></html>x`;".data)
              ((0 : Int) + 8).toNat 38)
      ∧ begWith docTypeW
          (pySliceIE ("return `<!DOCTYPE html><p></p></html>x`;".data)
            ((0 : Int) + 8).toNat 38) = true) := by
  have h := claim10_region_convention
    ("return `<!DOCTYPE html><p></p></html>x`;".data) 0 30 38
    (by decide) (by decide) (by decide) (by decide) (by decide) (by decide)
  exact ⟨by decide, by decide, by decide, h.1, h.2.1⟩

end VerifyScripts
